import Mathlib

/-!
Verification of the catalog-ingestion pipeline in `gucci.py`.

The development shallowly embeds the script's core functions:

* `process_url`, `deduplicate_images`, `process_images` — the product
  normalizer (image URL rewriting and deduplication);
* `detailMerge` / `detailFinish` / `get_product_details` — the product
  detail enricher;
* `pageLoop` / `processItems` / `crawlCatLang` / `runAll` / `runTop` —
  the pagination walker and run orchestrator over an abstract HTTP
  collaborator (`Api`) and an explicit catalog store;
* `download` / `downloadProduct` — the image downloader over an explicit
  filesystem abstraction.

Python dictionaries are modelled as insertion-ordered association lists
with unique keys; JSON values as the inductive `JValue`; Python string
operations (`split`, `replace`, trailing-segment extraction) are
implemented over `List Char` with the same semantics as CPython's
`str.split(sep)` and `str.replace(old, new)`.  Exceptions (`KeyError`,
`TypeError`, `AttributeError`, `IndexError`) are modelled with
`Except PyErr`; an uncaught exception in the script corresponds to an
`Except.error` result of the embedded function.  Loops whose bound is
read from the network (`while page < number_of_pages`) take explicit
fuel; exhausting the fuel yields the distinguished error `.outOfFuel`,
which never occurs in any run considered by the theorems.

Modelling notes (deviations forced by the embedding):
* `productCode` values are required to be JSON strings (the source
  annotates them with `cast(str, ...)` and uses them as store keys and
  directory names); a non-string code yields `.typeError` in the model.
* Values that the script would iterate although they are not JSON
  arrays (for example a string stored under `translations`) uniformly
  yield `.typeError` / `.attributeError` rather than reproducing every
  CPython iteration corner case; no theorem below depends on such
  shapes.
* File contents and streaming chunks are out of scope (the spec treats
  on-disk encoding as external); the filesystem is a set of paths.
-/

/-- Python exception kinds raised by the modelled code paths. -/
inductive PyErr where
  | keyError (k : String)
  | typeError
  | attributeError
  | indexError
  | outOfFuel
  deriving DecidableEq, Repr

/-- JSON values, as returned by the `get` helper in the source. -/
inductive JValue where
  | str (s : String)
  | num (n : Int)
  | bool (b : Bool)
  | null
  | arr (xs : List JValue)
  | obj (kvs : List (String × JValue))
  deriving Repr

/-- A Python dict with string keys: insertion-ordered key/value pairs. -/
abbrev PyDict := List (String × JValue)

/-- The catalog store: `self.products`, product code to product record. -/
abbrev Store := List (String × PyDict)

/-- Keys of a dict / of the store, in insertion order. -/
def dkeys {β : Type} (d : List (String × β)) : List String := d.map Prod.fst

/-- Python `d[k]` for dicts: first (unique) binding, `KeyError` if absent. -/
def dgetE (d : PyDict) (k : String) : Except PyErr JValue :=
  match d.lookup k with
  | some v => .ok v
  | none => .error (.keyError k)

/-- Python `d[k] = v`: replace the value in place if the key is present
(insertion order preserved), otherwise append the new binding. -/
def dinsert (d : PyDict) (k : String) (v : JValue) : PyDict :=
  if (d.lookup k).isSome then
    d.map (fun kv => if kv.1 = k then (k, v) else kv)
  else
    d ++ [(k, v)]

/-- Python `d.update(e)`: fold `dinsert` over `e`'s bindings in order. -/
def dupdate (d e : PyDict) : PyDict :=
  e.foldl (fun acc kv => dinsert acc kv.1 kv.2) d

/-- Python `d.pop(k, None)`: remove the binding for `k` if present. -/
def dpop (d : PyDict) (k : String) : PyDict :=
  d.filter (fun kv => !(kv.1 == k))

/-- Split a character list at every occurrence of `c`
(CPython `str.split(sep)` semantics for a one-character separator:
empty pieces are kept, the empty string splits to one empty piece). -/
def splitChar (c : Char) : List Char → List (List Char)
  | [] => [[]]
  | x :: xs =>
    match splitChar c xs with
    | [] => if x = c then [[], []] else [[x]]
    | h :: t => if x = c then [] :: h :: t else (x :: h) :: t

/-- Python `s.split(sep)` for a one-character separator. -/
def pySplit (s : String) (c : Char) : List String :=
  (splitChar c s.data).map String.mk

/-- Replacement of every leftmost non-overlapping occurrence of the
nonempty pattern `p :: pt` by `rep` (CPython `str.replace` semantics).
The `Nat` argument is structural-recursion fuel; it is always called
with at least the length of the subject list, which makes the
fuel-exhausted branch unreachable. -/
def replaceListNE (p : Char) (pt rep : List Char) : Nat → List Char → List Char
  | _, [] => []
  | 0, l => l
  | n + 1, x :: xs =>
    if (p :: pt).isPrefixOf (x :: xs) then
      rep ++ replaceListNE p pt rep (n - pt.length) (xs.drop pt.length)
    else
      x :: replaceListNE p pt rep n xs

/-- Python `s.replace(pat, rep)`, including the empty-pattern case
(`"ab".replace("", "x") = "xaxbx"`). -/
def pyReplace (s pat rep : String) : String :=
  match pat.data with
  | [] => rep ++ String.mk (s.data.foldr (fun c acc => c :: (rep.data ++ acc)) [])
  | p :: pt => String.mk (replaceListNE p pt rep.data s.data.length s.data)

/-- Python `url.split("/")[-1]`: the trailing path segment
(`split` always returns a nonempty list). -/
def lastSegment (url : String) : String :=
  (pySplit url '/').getLastD ""

/-- The fixed image style constant `image_style` from the source. -/
def image_style : String := "DarkGray_Center_0_0_2400x2400"

/-- `process_url` from `Gucci.get_products`: take the path segment at
index 4 of `url.split("/")` as the style token (IndexError when the URL
has fewer than five segments), replace every occurrence of that token by
`image_style`, and prepend `"https:"` to the result. -/
def process_url (url : String) : Except PyErr String :=
  match (pySplit url '/').get? 4 with
  | some style => .ok ("https:" ++ pyReplace url style image_style)
  | none => .error .indexError

/-- The derived filename used as the deduplication key: the trailing
path segment, truncated at the first `-` and given a `.jpg` extension
when it contains a `-`. -/
def dedupKey (image : String) : String :=
  let filename := lastSegment image
  if '-' ∈ filename.data then
    String.mk ((splitChar '-' filename.data).headD []) ++ ".jpg"
  else
    filename

/-- Worker for `deduplicate_images`: keep the first image for each
derived filename.  `seen` is the `filenames` set of the source; the
accumulator holds the kept images (the source collects them into a
Python `set` and returns `list(result)`, whose order is arbitrary, so
all theorems below are stated up to membership and counting). -/
def dedupGo : List String → List String → List String → List String
  | [], _, acc => acc.reverse
  | image :: rest, seen, acc =>
    let filename := dedupKey image
    if filename ∈ seen then
      dedupGo rest seen acc
    else
      dedupGo rest (filename :: seen) (image :: acc)

/-- `deduplicate_images` from `Gucci.get_products`. -/
def deduplicate_images (images : List String) : List String :=
  dedupGo images [] []

/-- Require a JSON object (Python raises `TypeError` when a non-dict is
indexed with a string key). -/
def asObj : JValue → Except PyErr PyDict
  | .obj d => .ok d
  | _ => .error .typeError

/-- Require a JSON array (Python raises `TypeError` when iterating a
non-iterable in the shapes exercised here; see the modelling notes). -/
def asList : JValue → Except PyErr (List JValue)
  | .arr xs => .ok xs
  | _ => .error .typeError

/-- Require a JSON string for a product code (the source annotates
product codes with `cast(str, ...)` and uses them as store keys and
directory names; non-string codes are outside the modelled domain). -/
def asCodeStr : JValue → Except PyErr String
  | .str s => .ok s
  | _ => .error .typeError

/-- Python `v[k]` for a JSON value: `KeyError` on a missing key of an
object, `TypeError` when `v` is not a dict. -/
def jIndex (v : JValue) (k : String) : Except PyErr JValue :=
  match v with
  | .obj d => dgetE d k
  | _ => .error .typeError

/-- The `get` helper: a fetch result is `None` on transport/parse
failure, and parsed JSON is returned only when it is a dict or a list
(anything else is also turned into `None`). -/
def getJ : Option JValue → Option JValue
  | none => none
  | some v =>
    match v with
    | .obj d => some (.obj d)
    | .arr xs => some (.arr xs)
    | _ => none

/-- Keys dropped by `Gucci.get_product_details`. -/
def detailDropKeys : List String :=
  ["assortments", "availability", "categories", "status", "variants",
   "project", "prices", "lastUpdated", "exotic", "genders",
   "materialCare", "styleCode", "language", "madeIn", "translations"]

/-- The rename table of `Gucci.get_product_details` (old name, new name). -/
def renameTable : List (String × String) :=
  [("editorialDescription", "editorial"),
   ("variationDescription", "variation"),
   ("departmentDescription", "department"),
   ("subDepartmentDescription", "subDepartment"),
   ("seasonDescription", "season"),
   ("detailParts", "details")]

/-- The old names of the rename table, in iteration order. -/
def renameSources : List String := renameTable.map Prod.fst

/-- Python `rename.get(k, k)`. -/
def renameGet (k : String) : String :=
  (renameTable.lookup k).getD k

/-- Does `translation.get("language", "") == self.language` hold?  A
missing `language` key defaults to `""`; a non-string value never
equals the configured (string) target language. -/
def translationMatches (t : PyDict) (lang : String) : Bool :=
  match t.lookup "language" with
  | some (.str s) => s == lang
  | some _ => false
  | none => "" == lang

/-- The `translations` loop of `Gucci.get_product_details`: merge every
translation entry whose language matches the target into the record. -/
def detailMerge (lang : String) (d : PyDict) : Except PyErr PyDict :=
  match d.lookup "translations" with
  | none => .ok d
  | some (.arr ts) =>
    ts.foldlM
      (fun acc t =>
        match t with
        | .obj td =>
          if translationMatches td lang then .ok (dupdate acc td) else .ok acc
        | _ => .error .attributeError)
      d
  | some _ => .error .typeError

/-- One step of the drop/rename comprehension
`{rename.get(k, k): v for k, v in data.items() if k not in drop_keys}`. -/
def detailStep (acc : PyDict) (kv : String × JValue) : PyDict :=
  if kv.1 ∈ detailDropKeys then acc else dinsert acc (renameGet kv.1) kv.2

/-- The drop/rename comprehension followed by
`for key in rename: data.pop(key, None)`. -/
def detailFinish (d : PyDict) : PyDict :=
  renameSources.foldl dpop (d.foldl detailStep [])

/-- The pure part of `Gucci.get_product_details` applied to a fetched
detail object: translation merge, then drop/rename, then defensive pops
of the old rename-source names. -/
def detailTransform (lang : String) (d : PyDict) : Except PyErr PyDict :=
  match detailMerge lang d with
  | .ok d₁ => .ok (detailFinish d₁)
  | .error e => .error e

/-- `Gucci.get_product_details`: fetch the detail endpoint for a code
(`details` is the HTTP collaborator); an absent response yields the
empty record, a JSON list response makes `data.get` raise
`AttributeError`, and an object response is transformed. -/
def get_product_details (details : String → Option JValue) (lang code : String) :
    Except PyErr PyDict :=
  match getJ (details code) with
  | none => .ok []
  | some (.obj d) => detailTransform lang d
  | some _ => .error .attributeError

/-- Keys dropped from a listing record by `Gucci.get_products`. -/
def listingDropKeys : List String :=
  ["showOutOfStockLabel", "showAvailableInStoreOnlyLabel",
   "videoBackgroundImage", "zoomImagePrimary", "zoomImageAlternate",
   "filterType", "nonTransactionalWebSite", "isDiyProduct",
   "inStockEntry", "inStoreStockEntry", "inStoreStockRegionalEntry",
   "visibleWithoutStock", "showSavedItemIcon", "type", "saleType",
   "fullPrice", "position", "isFavorite", "isOnlineExclusive",
   "isRegionalOnlineExclusive", "regionalOnlineExclusiveMsg",
   "isExclusiveSale", "label", "imgBase", "productName",
   "primaryImage", "alternateImage", "alternateGalleryImages"]

/-- `process_url` applied to a candidate `src` value: a non-string
raises `AttributeError` at `url.split`. -/
def processUrlJ : JValue → Except PyErr String
  | .str s => process_url s
  | _ => .error .attributeError

/-- `image["src"]` for every entry of the alternate gallery list. -/
def gallerySrcs : List JValue → Except PyErr (List JValue)
  | [] => .ok []
  | g :: gs =>
    match jIndex g "src" with
    | .ok v =>
      match gallerySrcs gs with
      | .ok vs => .ok (v :: vs)
      | .error e => .error e
    | .error e => .error e

/-- Map `process_url` over the collected candidate URLs. -/
def processAll : List JValue → Except PyErr (List String)
  | [] => .ok []
  | v :: vs =>
    match processUrlJ v with
    | .ok s =>
      match processAll vs with
      | .ok ss => .ok (s :: ss)
      | .error e => .error e
    | .error e => .error e

/-- `process_images` from `Gucci.get_products`: collect the gallery
sources, then the primary and alternate image sources (in that order),
rewrite each with `process_url` and deduplicate the result.  Key
lookups (`primaryImage`, `alternateGalleryImages`, `alternateImage`,
`src`) raise `KeyError` when absent, in source order. -/
def process_images (product : PyDict) : Except PyErr (List String) :=
  match dgetE product "primaryImage" with
  | .error e => .error e
  | .ok primary =>
    match dgetE product "alternateGalleryImages" with
    | .error e => .error e
    | .ok galleryV =>
      match dgetE product "alternateImage" with
      | .error e => .error e
      | .ok alternate =>
        match asList galleryV with
        | .error e => .error e
        | .ok gallery =>
          match gallerySrcs gallery with
          | .error e => .error e
          | .ok srcs =>
            match jIndex primary "src" with
            | .error e => .error e
            | .ok psrc =>
              match jIndex alternate "src" with
              | .error e => .error e
              | .ok asrc =>
                match processAll (srcs ++ [psrc, asrc]) with
                | .error e => .error e
                | .ok urls => .ok (deduplicate_images urls)

/-- Observable network events of a crawl: one `pageFetch` per listing
request issued by the pagination loop and one `detailFetch` per product
detail request issued for a new product. -/
inductive Event where
  | pageFetch (cat lang : String) (page : Nat)
  | detailFetch (code : String)
  deriving DecidableEq, Repr

/-- Is an event a listing-page fetch? -/
def Event.isPage : Event → Bool
  | .pageFetch _ _ _ => true
  | .detailFetch _ => false

/-- The configuration consumed by the core (CLI values of the source). -/
structure Config where
  path : String
  categories : List String
  langCodes : List String
  language : String
  productDetails : Bool

/-- I/O failure raised while persisting the catalog. -/
inductive IOErr where
  | ioError (msg : String)
  deriving DecidableEq, Repr

/-- The external collaborators: the two HTTP endpoints used by the
crawl (already parsed, `none` on transport/parse failure) and the
filesystem write used by `save`. -/
structure Api where
  listing : String → String → Nat → Option JValue
  details : String → Option JValue
  write : String → Store → Except IOErr Unit

/-- Evaluation of the loop condition `page < number_of_pages`: the
bound is whatever JSON value the previous response stored, and a
non-integer bound raises `TypeError` at the comparison. -/
def ltNat (page : Nat) (np : JValue) : Except PyErr Bool :=
  match np with
  | .num n => .ok ((page : Int) < n)
  | _ => .error .typeError

/-- Extraction of a product code from a listing item:
`product["productCode"]` (`TypeError` for a non-dict item, `KeyError`
when the key is absent, `TypeError` for a non-string code). -/
def itemCode (item : JValue) : Except PyErr String :=
  match asObj item with
  | .error e => .error e
  | .ok d =>
    match dgetE d "productCode" with
    | .error e => .error e
    | .ok v => asCodeStr v

/-- The body of the per-item loop in `Gucci.get_products`: an item whose
code is already a store key is skipped outright; a new item has its
images normalized, its presentation keys dropped, optionally its detail
fields merged (with one `detailFetch` event), and is inserted into the
store under its code. -/
def processItems (api : Api) (cfg : Config) :
    List JValue → Store → Except PyErr (Store × List Event)
  | [], store => .ok (store, [])
  | item :: rest, store =>
    match itemCode item with
    | .error e => .error e
    | .ok code =>
      if (store.lookup code).isSome then
        processItems api cfg rest store
      else
        match asObj item with
        | .error e => .error e
        | .ok d =>
          match process_images d with
          | .error e => .error e
          | .ok images =>
            let d := dinsert d "images" (.arr (images.map .str))
            let d := listingDropKeys.foldl dpop d
            if cfg.productDetails then
              match get_product_details api.details cfg.language code with
              | .error e => .error e
              | .ok details =>
                match processItems api cfg rest (store ++ [(code, dupdate d details)]) with
                | .error e => .error e
                | .ok (store', evs) => .ok (store', .detailFetch code :: evs)
            else
              match processItems api cfg rest (store ++ [(code, d)]) with
              | .error e => .error e
              | .ok (store', evs) => .ok (store', evs)

/-- The `while page < number_of_pages` loop of `Gucci.get_products`.
`np` is the current value of `number_of_pages` (initially the integer
1); a failed fetch ends the loop normally, as does an empty item list;
`numberOfPages`, `products` and `items` lookups raise `KeyError` when
absent.  The fuel bounds the number of iterations; `.outOfFuel` is the
distinguished result of exhausting it. -/
def pageLoop (api : Api) (cfg : Config) (cat lang : String) :
    Nat → Nat → JValue → Store → Except PyErr (Store × List Event)
  | 0, _, _, _ => .error .outOfFuel
  | fuel + 1, page, np, store =>
    match ltNat page np with
    | .error e => .error e
    | .ok false => .ok (store, [])
    | .ok true =>
      match getJ (api.listing cat lang page) with
      | none => .ok (store, [.pageFetch cat lang page])
      | some data =>
        match jIndex data "numberOfPages" with
        | .error e => .error e
        | .ok np' =>
          match jIndex data "products" with
          | .error e => .error e
          | .ok productsV =>
            match jIndex productsV "items" with
            | .error e => .error e
            | .ok itemsV =>
              match asList itemsV with
              | .error e => .error e
              | .ok items =>
                if items.length = 0 then
                  .ok (store, [.pageFetch cat lang page])
                else
                  match processItems api cfg items store with
                  | .error e => .error e
                  | .ok (store', evs) =>
                    match pageLoop api cfg cat lang fuel (page + 1) np' store' with
                    | .error e => .error e
                    | .ok (store'', evs') =>
                      .ok (store'', .pageFetch cat lang page :: (evs ++ evs'))

/-- `Gucci.get_products` for one (category, language) pair: a category
outside the configured allow-list is skipped before any fetch,
otherwise the page loop starts at page 0 with an assumed bound of 1. -/
def crawlCatLang (api : Api) (cfg : Config) (cat lang : String) (fuel : Nat)
    (store : Store) : Except PyErr (Store × List Event) :=
  if cat ∈ cfg.categories then
    pageLoop api cfg cat lang fuel 0 (.num 1) store
  else
    .ok (store, [])

/-- The nested loops of `Gucci.run`, flattened into a list of
(language, category) pairs processed in order against the shared store. -/
def runPairs (api : Api) (cfg : Config) (fuel : Nat) :
    List (String × String) → Store → Except PyErr (Store × List Event)
  | [], store => .ok (store, [])
  | (lang, cat) :: rest, store =>
    match crawlCatLang api cfg cat lang fuel store with
    | .error e => .error e
    | .ok (store₁, ev₁) =>
      match runPairs api cfg fuel rest store₁ with
      | .error e => .error e
      | .ok (store₂, ev₂) => .ok (store₂, ev₁ ++ ev₂)

/-- The crawl phase of `Gucci.run`: every configured language, and for
each language every configured category, in order. -/
def runAll (api : Api) (cfg : Config) (fuel : Nat) (store : Store) :
    Except PyErr (Store × List Event) :=
  runPairs api cfg fuel
    (cfg.langCodes.flatMap (fun lang => cfg.categories.map (fun cat => (lang, cat)))) store

/-- The count delta reported by `Gucci.save`:
`len(self.products) - self.initial_count`. -/
def storeDelta (initial final : Store) : Int :=
  (final.length : Int) - (initial.length : Int)

/-- Errors escaping `Gucci.run`: an uncaught Python exception from the
crawl, or a filesystem error from `save` (the source wraps neither in a
handler). -/
inductive RunErr where
  | py (e : PyErr)
  | io (e : IOErr)
  deriving DecidableEq, Repr

/-- `Gucci.save`: write the full store to the explicit save path when
one is given, to the configured catalog path otherwise.  There is no
exception handler, so a write failure propagates. -/
def save (api : Api) (cfg : Config) (savePath : Option String) (store : Store) :
    Except RunErr Unit :=
  match api.write (savePath.getD cfg.path) store with
  | .error e => .error (.io e)
  | .ok _ => .ok ()

/-- `Gucci.run` followed by its final `save`: crawl every configured
pair, then persist.  Any exception from either phase propagates. -/
def runTop (api : Api) (cfg : Config) (fuel : Nat) (store : Store)
    (savePath : Option String) : Except RunErr Unit :=
  match runAll api cfg fuel store with
  | .error e => .error (.py e)
  | .ok (store', _) => save api cfg savePath store'

/-- Does a filename match the `"*.jpg"` glob of `Gucci.download_images`? -/
def isJpgName (f : String) : Bool :=
  ".jpg".data.isSuffixOf f.data

/-- The `download` helper over an explicit directory listing: if the
destination filename already exists there is no request and no write;
otherwise one request is made (`net` tells whether it succeeds) and the
file is written only on success.  Returns the new directory listing and
the requested URLs. -/
def download (net : String → Bool) (dirFiles : List String) (url filename : String) :
    List String × List String :=
  if filename ∈ dirFiles then
    (dirFiles, [])
  else if net url then
    (dirFiles ++ [filename], [url])
  else
    (dirFiles, [url])

/-- The per-image loop of `Gucci.download_images`: each image is saved
under its URL's trailing path segment inside the product directory. -/
def downloadEach (net : String → Bool) :
    List JValue → List String → Except PyErr (List String × List String)
  | [], dirFiles => .ok (dirFiles, [])
  | v :: vs, dirFiles =>
    match v with
    | .str url =>
      let (dirFiles', reqs) := download net dirFiles url (lastSegment url)
      (match downloadEach net vs dirFiles' with
       | .error e => .error e
       | .ok (dirFiles'', reqs') => .ok (dirFiles'', reqs ++ reqs'))
    | _ => .error .attributeError

/-- The per-product body of `Gucci.download_images`: read the record's
code and image list, skip the whole product when the count of `*.jpg`
files already in its directory equals the number of listed images, and
otherwise run `download` for every image.  Returns the directory
listing after the product and the URLs requested for it. -/
def downloadProduct (net : String → Bool) (product : PyDict) (dirFiles : List String) :
    Except PyErr (List String × List String) :=
  match dgetE product "productCode" with
  | .error e => .error e
  | .ok codeV =>
    match asCodeStr codeV with
    | .error e => .error e
    | .ok _ =>
      match dgetE product "images" with
      | .error e => .error e
      | .ok imagesV =>
        match asList imagesV with
        | .error e => .error e
        | .ok images =>
          if (dirFiles.filter isJpgName).length = images.length then
            .ok (dirFiles, [])
          else
            downloadEach net images dirFiles

/-! Concrete inputs used by the witnesses and counterexamples below. -/

/-- A configuration with one language and one category, detail fetching
enabled. -/
def cfgDet : Config :=
  { path := "gucci.json", categories := ["women"], langCodes := ["us/en"],
    language := "en", productDetails := true }

/-- A configuration with one language and one category, detail fetching
disabled. -/
def cfgNoDet : Config :=
  { path := "gucci.json", categories := ["women"], langCodes := ["us/en"],
    language := "en", productDetails := false }

/-- A listing item for product `P1` with primary, gallery and alternate
images and one presentation field. -/
def itemP1 : JValue := .obj
  [("productCode", .str "P1"),
   ("primaryImage", .obj [("src", .str "//h.io/a/b/S1/P1-1.jpg")]),
   ("alternateGalleryImages", .arr [.obj [("src", .str "//h.io/a/b/S1/P1-3.jpg")]]),
   ("alternateImage", .obj [("src", .str "//h.io/a/b/S1/P1-2.jpg")]),
   ("label", .str "L1")]

/-- A listing item for product `P2`. -/
def itemP2 : JValue := .obj
  [("productCode", .str "P2"),
   ("primaryImage", .obj [("src", .str "//h.io/a/b/S2/P2-1.jpg")]),
   ("alternateGalleryImages", .arr [.obj [("src", .str "//h.io/a/b/S2/Q2.png")]]),
   ("alternateImage", .obj [("src", .str "//h.io/a/b/S2/P2-2.jpg")]),
   ("label", .str "L2")]

/-- A one-page listing response holding the given items. -/
def mkPage (np : Int) (items : List JValue) : JValue := .obj
  [("numberOfPages", .num np),
   ("products", .obj [("items", .arr items)])]

/-- A detail response for `P2`: a top-level `editorialDescription` of
`"A"`, a non-matching and a matching translation entry (the matching
one carries `editorialDescription = "B"`), plus a drop-listed key. -/
def detailP2 : JValue := .obj
  [("editorialDescription", .str "A"),
   ("status", .str "ACTIVE"),
   ("translations", .arr
     [.obj [("language", .str "fr"), ("editorialDescription", .str "F")],
      .obj [("language", .str "en"), ("editorialDescription", .str "B")]])]

/-- The fixed mock API used for the idempotence witness: one listing
page with `itemP1` and `itemP2`, a detail endpoint for `P2`, and a
successful writer. -/
def apiW : Api :=
  { listing := fun cat lang page =>
      if cat = "women" ∧ lang = "us/en" ∧ page = 0 then some (mkPage 1 [itemP1, itemP2])
      else none,
    details := fun code => if code = "P2" then some detailP2 else none,
    write := fun _ _ => .ok () }

/-- An initial store that already holds `P1` (so the crawl must neither
re-fetch nor overwrite it). -/
def storeW : Store := [("P1", [("productCode", .str "P1")])]

/-- An API returning the same listing object for every page, used for
the structurally-deficient-response scenarios. -/
def mkListingApi (v : JValue) : Api :=
  { listing := fun _ _ _ => some v,
    details := fun _ => none,
    write := fun _ _ => .ok () }

/-- Page response lacking `numberOfPages`. -/
def pageNoNp : JValue := .obj [("products", .obj [("items", .arr [])])]

/-- Page response lacking `products`. -/
def pageNoProducts : JValue := .obj [("numberOfPages", .num 1)]

/-- Listing item lacking `productCode`. -/
def itemNoCode : JValue := .obj [("foo", .str "x")]

/-- Listing item lacking `primaryImage`. -/
def itemNoPrimary : JValue := .obj [("productCode", .str "P")]

/-- Listing item lacking `alternateGalleryImages`. -/
def itemNoGallery : JValue := .obj
  [("productCode", .str "P"),
   ("primaryImage", .obj [("src", .str "//h.io/a/b/c/x.jpg")])]

/-- Listing item lacking `alternateImage`. -/
def itemNoAlternate : JValue := .obj
  [("productCode", .str "P"),
   ("primaryImage", .obj [("src", .str "//h.io/a/b/c/x.jpg")]),
   ("alternateGalleryImages", .arr [])]

/-- A stored record for the image-download scenarios: one image URL. -/
def productOneImage : PyDict :=
  [("productCode", .str "P"),
   ("images", .arr [.str "//h.io/x/a.jpg"])]

/-- A stored record whose single image filename is already a `.jpg`. -/
def productJpg : PyDict :=
  [("productCode", .str "P"),
   ("images", .arr [.str "//h.io/x/A.jpg"])]

/-- A configuration with no categories (its crawl phase does nothing,
which isolates the save step). -/
def cfgEmptyCats : Config :=
  { path := "gucci.json", categories := [], langCodes := ["us/en"],
    language := "en", productDetails := false }

/-- An API whose writer always fails (an unwritable destination). -/
def apiBadWrite : Api :=
  { listing := fun _ _ _ => none,
    details := fun _ => none,
    write := fun _ _ => .error (.ioError "unwritable") }

/-- The final store of the idempotence witness run: `P1` untouched,
`P2` appended with normalized images and merged detail fields. -/
def storeWFinal : Store :=
  [("P1", [("productCode", .str "P1")]),
   ("P2", [("productCode", .str "P2"),
           ("images", .arr [.str "https://h.io/a/DarkGray_Center_0_0_2400x2400/S2/Q2.png",
                            .str "https://h.io/a/DarkGray_Center_0_0_2400x2400/S2/P2-1.jpg"]),
           ("editorial", .str "B")])]

/-- The event log of the idempotence witness run. -/
def evW : List Event := [.pageFetch "women" "us/en" 0, .detailFetch "P2"]

/-- Pagination witness API: pages 0-2 of (women, us/en) return
`numberOfPages = 3` with one item, anything else fails. -/
def apiPag3 : Api :=
  { listing := fun cat lang p =>
      if cat = "women" ∧ lang = "us/en" ∧ p < 3 then some (mkPage 3 [itemP1]) else none,
    details := fun _ => none,
    write := fun _ _ => .ok () }

/-- Pagination witness API: page 0 non-empty, page 1 empty, both
claiming `numberOfPages = 5`. -/
def apiPagEmpty : Api :=
  { listing := fun cat lang p =>
      if cat = "women" ∧ lang = "us/en" ∧ p = 0 then some (mkPage 5 [itemP1])
      else if cat = "women" ∧ lang = "us/en" ∧ p = 1 then some (mkPage 5 [])
      else none,
    details := fun _ => none,
    write := fun _ _ => .ok () }

/-- Pagination witness API: page 0 non-empty claiming `numberOfPages =
5`, every later fetch fails. -/
def apiPagFail : Api :=
  { listing := fun cat lang p =>
      if cat = "women" ∧ lang = "us/en" ∧ p = 0 then some (mkPage 5 [itemP1])
      else none,
    details := fun _ => none,
    write := fun _ _ => .ok () }

/-- The normalized record produced from `itemP1` without detail
fetching (its three image URLs all derive the filename `P1.jpg`, so
only the first-encountered gallery URL survives). -/
def recP1 : PyDict :=
  [("productCode", .str "P1"),
   ("images", .arr [.str "https://h.io/a/DarkGray_Center_0_0_2400x2400/S1/P1-3.jpg"])]

/-! The claims. -/

/-- C4: rewriting the scheme-relative URL
`//assets.example.com/media/STYLE123/large/img.jpg` substitutes the
style path segment with the fixed constant and prefixes the `https`
scheme, yielding exactly
`https://assets.example.com/media/DarkGray_Center_0_0_2400x2400/large/img.jpg`. -/
theorem claim4_style_rewrite :
    process_url "//assets.example.com/media/STYLE123/large/img.jpg"
      = .ok "https://assets.example.com/media/DarkGray_Center_0_0_2400x2400/large/img.jpg" := by
  with_unfolding_all rfl

/-- C5 counterexample: the claim says a URL that already carries a
scheme is left unchanged apart from the style segment, and that only
the segment at the style position is rewritten.  Both parts fail: the
code unconditionally prepends `https:` (so a URL with a scheme gains a
second one), and `str.replace` rewrites every occurrence of the style
token, here also inside the trailing filename segment. -/
theorem claim5_counterexample :
    process_url "https://a.com/media/STYLE/large/img.jpg"
      = .ok "https:https://a.com/media/DarkGray_Center_0_0_2400x2400/large/img.jpg"
    ∧ ("https:https://a.com/media/DarkGray_Center_0_0_2400x2400/large/img.jpg" : String)
      ≠ "https://a.com/media/DarkGray_Center_0_0_2400x2400/large/img.jpg"
    ∧ process_url "//a.com/media/STYLE/large/STYLE-1.jpg"
      = .ok "https://a.com/media/DarkGray_Center_0_0_2400x2400/large/DarkGray_Center_0_0_2400x2400-1.jpg" := by
  refine ⟨?_, ?_, ?_⟩
  · with_unfolding_all rfl
  · decide
  · with_unfolding_all rfl

/-- C5 (amended): for every candidate URL with at least five
slash-separated segments, the rewrite takes the segment at index 4 as
the style token, replaces every occurrence of that token substring
throughout the URL with the constant `DarkGray_Center_0_0_2400x2400`,
and unconditionally prefixes `https:` to the result (also when the URL
already carries a scheme). -/
theorem claim5_rewrite_behavior (url sty : String)
    (h : (pySplit url '/').get? 4 = some sty) :
    process_url url = .ok ("https:" ++ pyReplace url sty image_style) := by
  unfold process_url
  rw [h]

/-- Witness for C5: the amended behavior at a URL that already carries
a scheme. -/
theorem claim5_witness :
    (pySplit "https://a.com/media/STYLE/large/img.jpg" '/').get? 4 = some "STYLE"
    ∧ process_url "https://a.com/media/STYLE/large/img.jpg"
        = .ok ("https:" ++ pyReplace "https://a.com/media/STYLE/large/img.jpg" "STYLE" image_style) :=
  ⟨by decide, claim5_rewrite_behavior "https://a.com/media/STYLE/large/img.jpg" "STYLE" (by decide)⟩

/-- C7 counterexample: a stored product listing one image whose
directory already contains exactly one file.  Because the file is not
a `.jpg`, the `*.jpg` glob count (0) differs from the image count (1),
the product-level skip does not trigger, and the per-image download
issues a network request — the claim predicted zero network calls for
a directory with exactly N files. -/
theorem claim7_counterexample :
    (["b.txt"] : List String).length = 1
    ∧ (match productOneImage.lookup "images" with
       | some (.arr images) => images.length
       | _ => 0) = 1
    ∧ downloadProduct (fun _ => true) productOneImage ["b.txt"]
        = .ok (["b.txt", "a.jpg"], ["//h.io/x/a.jpg"])
    ∧ (["//h.io/x/a.jpg"] : List String) ≠ [] := by
  refine ⟨rfl, rfl, ?_, by decide⟩
  with_unfolding_all rfl

/-- C7 (amended): for any stored product whose record lists N images
and whose directory already contains exactly N files matching the
`*.jpg` glob, the downloader performs zero network calls for that
product (the whole product is skipped, regardless of the file names
and of the network). -/
theorem claim7_download_skip (net : String → Bool) (product : PyDict)
    (dirFiles : List String) (codeS : String) (images : List JValue)
    (h1 : product.lookup "productCode" = some (.str codeS))
    (h2 : product.lookup "images" = some (.arr images))
    (h3 : (dirFiles.filter isJpgName).length = images.length) :
    downloadProduct net product dirFiles = .ok (dirFiles, []) := by
  unfold downloadProduct dgetE
  rw [h1, h2]
  simp [asCodeStr, asList, h3]

/-- Witness for C7: a directory holding exactly the one `.jpg` file of
a one-image record is skipped without any request. -/
theorem claim7_witness :
    downloadProduct (fun _ => false) productJpg ["A.jpg"] = .ok (["A.jpg"], []) :=
  claim7_download_skip (fun _ => false) productJpg ["A.jpg"] "P"
    [.str "//h.io/x/A.jpg"] rfl rfl (by decide)

/-- C8: `download(url, path)` is a no-op when the destination already
exists (no network request, filesystem unchanged); and when the request
fails, nothing is written and the path stays absent, so a later run
retries it. -/
theorem claim8_download_guard (netA netB : String → Bool) (fsA fsB : List String)
    (urlA pathA urlB pathB : String)
    (h1 : pathA ∈ fsA) (h2 : pathB ∉ fsB) (h3 : netB urlB = false) :
    download netA fsA urlA pathA = (fsA, [])
    ∧ download netB fsB urlB pathB = (fsB, [urlB])
    ∧ pathB ∉ (download netB fsB urlB pathB).1 := by
  refine ⟨?_, ?_, ?_⟩ <;> simp [download, h1, h2, h3]

/-- Witness for C8: an existing destination is returned untouched with
no request; a failing request leaves the filesystem empty. -/
theorem claim8_witness :
    download (fun _ => true) ["a.jpg"] "//h.io/x/a.jpg" "a.jpg" = (["a.jpg"], [])
    ∧ download (fun _ => false) [] "//h.io/x/b.jpg" "b.jpg" = ([], ["//h.io/x/b.jpg"])
    ∧ "b.jpg" ∉ (download (fun _ => false) [] "//h.io/x/b.jpg" "b.jpg").1 :=
  claim8_download_guard (fun _ => true) (fun _ => false) ["a.jpg"] []
    "//h.io/x/a.jpg" "a.jpg" "//h.io/x/b.jpg" "b.jpg" (by decide) (by decide) rfl

/-- C9: a filesystem failure while persisting the catalog store
propagates out of `save` and aborts the run as an error; it is never
silently swallowed into a no-op. -/
theorem claim9_save_failure (api : Api) (cfg : Config) (fuel : Nat) (s s' : Store)
    (ev : List Event) (savePath : Option String) (e : IOErr)
    (h1 : runAll api cfg fuel s = .ok (s', ev))
    (h2 : api.write (savePath.getD cfg.path) s' = .error e) :
    runTop api cfg fuel s savePath = .error (.io e)
    ∧ runTop api cfg fuel s savePath ≠ .ok () := by
  have hrun : runTop api cfg fuel s savePath = .error (.io e) := by
    unfold runTop save
    rw [h1]
    simp [h2]
  exact ⟨hrun, by simp [hrun]⟩

/-- Witness for C9: an unwritable destination surfaces as a propagated
`io` error of the run. -/
theorem claim9_witness :
    runTop apiBadWrite cfgEmptyCats 1 [] none = .error (.io (.ioError "unwritable"))
    ∧ runTop apiBadWrite cfgEmptyCats 1 [] none ≠ .ok () :=
  claim9_save_failure apiBadWrite cfgEmptyCats 1 [] [] [] none (.ioError "unwritable")
    (by with_unfolding_all rfl) rfl

/-- C10: when a page fetch succeeds but the returned object lacks
`numberOfPages` or `products`, or a returned item lacks `productCode`,
`primaryImage`, `alternateGalleryImages` or `alternateImage`, the run
crashes with an uncaught key-lookup error instead of skipping that unit
of work. -/
theorem claim10_missing_keys_crash :
    runTop (mkListingApi pageNoNp) cfgNoDet 2 [] none
      = .error (.py (.keyError "numberOfPages"))
    ∧ runTop (mkListingApi pageNoProducts) cfgNoDet 2 [] none
      = .error (.py (.keyError "products"))
    ∧ runTop (mkListingApi (mkPage 1 [itemNoCode])) cfgNoDet 2 [] none
      = .error (.py (.keyError "productCode"))
    ∧ runTop (mkListingApi (mkPage 1 [itemNoPrimary])) cfgNoDet 2 [] none
      = .error (.py (.keyError "primaryImage"))
    ∧ runTop (mkListingApi (mkPage 1 [itemNoGallery])) cfgNoDet 2 [] none
      = .error (.py (.keyError "alternateGalleryImages"))
    ∧ runTop (mkListingApi (mkPage 1 [itemNoAlternate])) cfgNoDet 2 [] none
      = .error (.py (.keyError "alternateImage")) := by
  refine ⟨?_, ?_, ?_, ?_, ?_, ?_⟩ <;> with_unfolding_all rfl

/-- Images already accumulated by the deduplication worker stay in its
result. -/
theorem dedupGo_mem_acc (rest : List String) :
    ∀ seen acc u, u ∈ acc → u ∈ dedupGo rest seen acc := by
  induction rest with
  | nil =>
    intro seen acc u hu
    simpa [dedupGo] using hu
  | cons image rest ih =>
    intro seen acc u hu
    by_cases h : dedupKey image ∈ seen
    · simpa [dedupGo, h] using ih seen acc u hu
    · simpa [dedupGo, h] using ih _ _ u (List.mem_cons_of_mem _ hu)

/-- An image whose derived filename is unseen and not shared with any
other input image is kept by the deduplication worker. -/
theorem dedupGo_mem (u : String) :
    ∀ rest seen acc, u ∈ rest → dedupKey u ∉ seen →
      (∀ v ∈ rest, v ≠ u → dedupKey v ≠ dedupKey u) →
      u ∈ dedupGo rest seen acc := by
  intro rest
  induction rest with
  | nil => intro seen acc hu; cases hu
  | cons image rest ih =>
    intro seen acc hu hseen hkeys
    by_cases himg : image = u
    · subst himg
      rw [show dedupGo (image :: rest) seen acc
            = dedupGo rest (dedupKey image :: seen) (image :: acc) from by
          simp [dedupGo, hseen]]
      exact dedupGo_mem_acc rest _ _ image (List.mem_cons_self image _)
    · have hmem : u ∈ rest := by
        rcases List.mem_cons.mp hu with heq | hmem
        · exact absurd heq.symm himg
        · exact hmem
      have hkey : dedupKey image ≠ dedupKey u :=
        hkeys image (List.mem_cons_self image rest) himg
      have hrec := ih seen acc hmem hseen
        (fun v hv hvu => hkeys v (List.mem_cons_of_mem _ hv) hvu)
      by_cases h : dedupKey image ∈ seen
      · rw [show dedupGo (image :: rest) seen acc = dedupGo rest seen acc from by
          simp [dedupGo, h]]
        exact hrec
      · rw [show dedupGo (image :: rest) seen acc
            = dedupGo rest (dedupKey image :: seen) (image :: acc) from by
          simp [dedupGo, h]]
        refine ih _ _ hmem ?_ (fun v hv hvu => hkeys v (List.mem_cons_of_mem _ hv) hvu)
        intro hc
        rcases List.mem_cons.mp hc with hc | hc
        · exact hkey hc.symm
        · exact hseen hc

/-- How many kept images derive a given filename `f`: one more than the
accumulator holds, exactly when `f` is not yet seen and some remaining
image derives it. -/
theorem dedupGo_count (f : String) :
    ∀ rest seen acc,
      (dedupGo rest seen acc).countP (fun v => decide (dedupKey v = f))
        = acc.countP (fun v => decide (dedupKey v = f))
          + (if f ∉ seen ∧ ∃ v ∈ rest, dedupKey v = f then 1 else 0) := by
  intro rest
  induction rest with
  | nil =>
    intro seen acc
    simp [dedupGo]
  | cons image rest ih =>
    intro seen acc
    by_cases h : dedupKey image ∈ seen
    · rw [show dedupGo (image :: rest) seen acc = dedupGo rest seen acc from by
        simp [dedupGo, h]]
      rw [ih]
      have hiff : (f ∉ seen ∧ ∃ v ∈ rest, dedupKey v = f)
          ↔ (f ∉ seen ∧ ∃ v ∈ image :: rest, dedupKey v = f) := by
        constructor
        · rintro ⟨hf, v, hv, hkv⟩
          exact ⟨hf, v, List.mem_cons_of_mem _ hv, hkv⟩
        · rintro ⟨hf, v, hv, hkv⟩
          refine ⟨hf, ?_⟩
          rcases List.mem_cons.mp hv with hveq | hv'
          · exfalso
            apply hf
            rw [← hkv, hveq]
            exact h
          · exact ⟨v, hv', hkv⟩
      rw [if_congr hiff rfl rfl]
    · rw [show dedupGo (image :: rest) seen acc
          = dedupGo rest (dedupKey image :: seen) (image :: acc) from by
        simp [dedupGo, h]]
      rw [ih]
      by_cases hk : dedupKey image = f
      · have hc : List.countP (fun v => decide (dedupKey v = f)) (image :: acc)
            = List.countP (fun v => decide (dedupKey v = f)) acc + 1 := by
          simp [List.countP_cons, hk]
        have hno : ¬ (f ∉ dedupKey image :: seen ∧ ∃ v ∈ rest, dedupKey v = f) := by
          rintro ⟨hf, _⟩
          apply hf
          rw [← hk]
          exact List.mem_cons_self _ _
        have hyes : f ∉ seen ∧ ∃ v ∈ image :: rest, dedupKey v = f := by
          constructor
          · intro hf
            apply h
            rw [hk]
            exact hf
          · exact ⟨image, List.mem_cons_self _ _, hk⟩
        rw [hc, if_neg hno, if_pos hyes]
      · have hc : List.countP (fun v => decide (dedupKey v = f)) (image :: acc)
            = List.countP (fun v => decide (dedupKey v = f)) acc := by
          simp [List.countP_cons, hk]
        have hiff : (f ∉ dedupKey image :: seen ∧ ∃ v ∈ rest, dedupKey v = f)
            ↔ (f ∉ seen ∧ ∃ v ∈ image :: rest, dedupKey v = f) := by
          constructor
          · rintro ⟨hf, v, hv, hkv⟩
            exact ⟨fun hc2 => hf (List.mem_cons_of_mem _ hc2),
              v, List.mem_cons_of_mem _ hv, hkv⟩
          · rintro ⟨hf, v, hv, hkv⟩
            refine ⟨?_, ?_⟩
            · intro hc2
              rcases List.mem_cons.mp hc2 with hc2 | hc2
              · exact hk hc2.symm
              · exact hf hc2
            · rcases List.mem_cons.mp hv with hveq | hv'
              · exact absurd (hveq ▸ hkv) hk
              · exact ⟨v, hv', hkv⟩
        rw [hc, if_congr hiff rfl rfl]

/-- C2 counterexample: an input that also contains `.../A-0.jpg` ahead
of `.../A-1.jpg` and `.../A-2.jpg`.  All three derive the filename
`A.jpg`, so the output keeps the first and contains neither of the two
URLs named by the claim — not "exactly one of them". -/
theorem claim2_counterexample :
    lastSegment "//h.io/x/A-1.jpg" = "A-1.jpg"
    ∧ lastSegment "//h.io/x/A-2.jpg" = "A-2.jpg"
    ∧ "//h.io/x/A-1.jpg"
        ∉ deduplicate_images ["//h.io/x/A-0.jpg", "//h.io/x/A-1.jpg", "//h.io/x/A-2.jpg"]
    ∧ "//h.io/x/A-2.jpg"
        ∉ deduplicate_images ["//h.io/x/A-0.jpg", "//h.io/x/A-1.jpg", "//h.io/x/A-2.jpg"] := by
  refine ⟨by decide, by decide, by decide, by decide⟩

/-- C2 (amended): deduplication keeps exactly one URL per derived
filename — for any input containing URLs with trailing segments
`A-1.jpg` and `A-2.jpg` the output contains exactly one URL whose
derived filename is `A.jpg` (the first such URL encountered, not
necessarily one of those two); and a URL whose derived filename no
other input URL shares (such as `.../B.jpg` and `.../C.jpg` in the
spec's scenario) is always kept. -/
theorem claim2_dedup_one_per_filename (l : List String) (f u : String)
    (h1 : ∃ v ∈ l, dedupKey v = f) (h2 : u ∈ l)
    (h3 : ∀ v ∈ l, v ≠ u → dedupKey v ≠ dedupKey u) :
    (deduplicate_images l).countP (fun v => decide (dedupKey v = f)) = 1
    ∧ u ∈ deduplicate_images l := by
  constructor
  · unfold deduplicate_images
    rw [dedupGo_count]
    simp [h1]
  · exact dedupGo_mem u l [] [] h2 (by simp) h3

/-- Witness for C2: on the spec's four-URL input, exactly one URL
derives `A.jpg`, and both `.../B.jpg` and `.../C.jpg` are kept. -/
theorem claim2_witness :
    (deduplicate_images ["//h.io/x/A-1.jpg", "//h.io/x/A-2.jpg", "//h.io/x/B.jpg",
        "//h.io/x/C.jpg"]).countP (fun v => decide (dedupKey v = "A.jpg")) = 1
    ∧ "//h.io/x/B.jpg" ∈ deduplicate_images ["//h.io/x/A-1.jpg", "//h.io/x/A-2.jpg",
        "//h.io/x/B.jpg", "//h.io/x/C.jpg"]
    ∧ "//h.io/x/C.jpg" ∈ deduplicate_images ["//h.io/x/A-1.jpg", "//h.io/x/A-2.jpg",
        "//h.io/x/B.jpg", "//h.io/x/C.jpg"] :=
  ⟨(claim2_dedup_one_per_filename _ "A.jpg" "//h.io/x/B.jpg" (by decide) (by decide)
      (by decide)).1,
   (claim2_dedup_one_per_filename _ "A.jpg" "//h.io/x/B.jpg" (by decide) (by decide)
      (by decide)).2,
   (claim2_dedup_one_per_filename _ "A.jpg" "//h.io/x/C.jpg" (by decide) (by decide)
      (by decide)).2⟩

/-- Unfolding of association-list lookup on a cons cell. -/
theorem lookup_cons_eq {β : Type} (a : String) (b : β) (d : List (String × β))
    (k : String) :
    ((a, b) :: d).lookup k = if k = a then some b else d.lookup k := by
  by_cases h : k = a
  · have : (k == a) = true := by simpa using h
    simp [List.lookup, this, h]
  · have : (k == a) = false := by simpa using h
    simp [List.lookup, this, h]

/-- Unfolding of `dpop` on a cons cell. -/
theorem dpop_cons (a : String) (v : JValue) (d : PyDict) (k : String) :
    dpop ((a, v) :: d) k = if a = k then dpop d k else (a, v) :: dpop d k := by
  by_cases h : a = k
  · have : (a == k) = true := by simpa using h
    simp [dpop, List.filter_cons, this, h]
  · have : (a == k) = false := by simpa using h
    simp [dpop, List.filter_cons, this, h]

/-- A key outside the key list of an association list looks up to
nothing. -/
theorem lookup_none_of_not_mem {β : Type} (k : String) :
    ∀ d : List (String × β), k ∉ dkeys d → d.lookup k = none := by
  intro d
  induction d with
  | nil => intro _; rfl
  | cons kv d ih =>
    intro h
    rcases kv with ⟨a, b⟩
    have hne : k ≠ a := fun hc => h (by simp [dkeys, hc])
    rw [lookup_cons_eq, if_neg hne]
    exact ih (fun hc => h (by simp [dkeys] at hc ⊢; exact Or.inr hc))

/-- A successful association-list lookup returns one of the stored
values. -/
theorem lookup_mem_values {β : Type} (k : String) (b : β) :
    ∀ d : List (String × β), d.lookup k = some b → b ∈ d.map Prod.snd := by
  intro d
  induction d with
  | nil => intro h; cases h
  | cons kv d ih =>
    intro h
    rcases kv with ⟨a, v⟩
    rw [lookup_cons_eq] at h
    by_cases hk : k = a
    · rw [if_pos hk] at h
      cases h
      simp
    · rw [if_neg hk] at h
      simpa using Or.inr (by simpa using ih h)

/-- `rename.get(k, k)` returns either `k` itself or one of the new
names of the rename table. -/
theorem renameGet_cases (k : String) :
    renameGet k = k ∨ renameGet k ∈ renameTable.map Prod.snd := by
  unfold renameGet
  cases h : renameTable.lookup k with
  | none => simp
  | some img =>
    right
    have := lookup_mem_values k img renameTable h
    simpa using this

/-- `dinsert` only ever adds the inserted key. -/
theorem mem_dkeys_dinsert (d : PyDict) (k : String) (v : JValue) (m : String)
    (h : m ∈ dkeys (dinsert d k v)) : m ∈ dkeys d ∨ m = k := by
  unfold dinsert at h
  by_cases hp : (d.lookup k).isSome
  · rw [if_pos hp] at h
    left
    unfold dkeys at h ⊢
    rw [List.map_map] at h
    rcases List.mem_map.mp h with ⟨kv, hkv, hfst⟩
    have : (Prod.fst ∘ fun kv => if kv.1 = k then (k, v) else kv) kv = kv.1 := by
      by_cases hc : kv.1 = k
      · simp [hc]
      · simp [hc]
    rw [this] at hfst
    exact hfst ▸ List.mem_map_of_mem Prod.fst hkv
  · rw [if_neg hp] at h
    unfold dkeys at h
    rw [List.map_append] at h
    rcases List.mem_append.mp h with h | h
    · exact Or.inl h
    · simp at h
      exact Or.inr h

/-- Every key of the drop/rename comprehension comes from the initial
accumulator or is `rename.get(k, k)` for some non-dropped input key. -/
theorem mem_dkeys_detailFold (d : PyDict) :
    ∀ init m, m ∈ dkeys (d.foldl detailStep init) →
      m ∈ dkeys init ∨ ∃ kv ∈ d, kv.1 ∉ detailDropKeys ∧ m = renameGet kv.1 := by
  induction d with
  | nil =>
    intro init m h
    exact Or.inl h
  | cons kv d ih =>
    intro init m h
    rw [List.foldl_cons] at h
    rcases ih (detailStep init kv) m h with h' | ⟨kv', hkv', hdrop, hm⟩
    · unfold detailStep at h'
      by_cases hd : kv.1 ∈ detailDropKeys
      · rw [if_pos hd] at h'
        exact Or.inl h'
      · rw [if_neg hd] at h'
        rcases mem_dkeys_dinsert init (renameGet kv.1) kv.2 m h' with h'' | h''
        · exact Or.inl h''
        · exact Or.inr ⟨kv, List.mem_cons_self kv d, hd, h''⟩
    · exact Or.inr ⟨kv', List.mem_cons_of_mem kv hkv', hdrop, hm⟩

/-- `dpop` removes its key. -/
theorem lookup_dpop_self (d : PyDict) (k : String) : (dpop d k).lookup k = none := by
  induction d with
  | nil => rfl
  | cons kv d ih =>
    rcases kv with ⟨a, v⟩
    rw [dpop_cons]
    by_cases h : a = k
    · rw [if_pos h]
      exact ih
    · rw [if_neg h, lookup_cons_eq, if_neg (fun hc => h hc.symm)]
      exact ih

/-- `dpop` preserves key absence. -/
theorem lookup_dpop_none (d : PyDict) (j k : String) (h : d.lookup k = none) :
    (dpop d j).lookup k = none := by
  induction d with
  | nil => rfl
  | cons kv d ih =>
    rcases kv with ⟨a, v⟩
    rw [lookup_cons_eq] at h
    by_cases hk : k = a
    · rw [if_pos hk] at h
      cases h
    · rw [if_neg hk] at h
      rw [dpop_cons]
      by_cases hj : a = j
      · rw [if_pos hj]
        exact ih h
      · rw [if_neg hj, lookup_cons_eq, if_neg hk]
        exact ih h

/-- A fold of `dpop` preserves key absence. -/
theorem lookup_foldl_dpop_none (ks : List String) :
    ∀ d k, d.lookup k = none → (ks.foldl dpop d).lookup k = none := by
  induction ks with
  | nil => intro d k h; exact h
  | cons j ks ih =>
    intro d k h
    rw [List.foldl_cons]
    exact ih (dpop d j) k (lookup_dpop_none d j k h)

/-- A fold of `dpop` removes every popped key. -/
theorem lookup_foldl_dpop_mem (ks : List String) :
    ∀ d k, k ∈ ks → (ks.foldl dpop d).lookup k = none := by
  induction ks with
  | nil => intro d k h; cases h
  | cons j ks ih =>
    intro d k h
    rw [List.foldl_cons]
    by_cases hk : k = j
    · subst hk
      exact lookup_foldl_dpop_none ks (dpop d k) k (lookup_dpop_self d k)
    · rcases List.mem_cons.mp h with h' | h'
      · exact absurd h' hk
      · exact ih (dpop d j) k h'

/-- No drop-listed key and no rename-source name survives the enricher
transformation, whatever the merged record was. -/
theorem detailFinish_absent (d : PyDict) (k : String)
    (hk : k ∈ detailDropKeys ∨ k ∈ renameSources) :
    (detailFinish d).lookup k = none := by
  unfold detailFinish
  rcases hk with hk | hk
  · refine lookup_foldl_dpop_none renameSources _ k ?_
    refine lookup_none_of_not_mem k _ ?_
    intro hmem
    rcases mem_dkeys_detailFold d [] k hmem with h | ⟨kv, _, hdrop, hm⟩
    · cases h
    · rcases renameGet_cases kv.1 with hg | hg
      · rw [hg] at hm
        exact hdrop (hm ▸ hk)
      · have htab : renameTable.map Prod.snd = ["editorial", "variation",
            "department", "subDepartment", "season", "details"] := by decide
        rw [htab] at hg
        rw [hm] at hk
        simp only [List.mem_cons, List.not_mem_nil, or_false] at hg
        rcases hg with h | h | h | h | h | h <;> rw [h] at hk <;> revert hk <;> decide
  · exact lookup_foldl_dpop_mem renameSources _ k hk

/-- C6: fields of the matching-language translation entry override
same-named top-level fields before renaming — with top-level
`editorialDescription = "A"` and translation `editorialDescription =
"B"` the enriched record maps `editorial` to `"B"` — and every
drop-listed key and every old rename-source name is absent from any
successfully enriched record. -/
theorem claim6_enricher (lang : String) (d r : PyDict) (k : String)
    (hk : k ∈ detailDropKeys ∨ k ∈ renameSources)
    (h : detailTransform lang d = .ok r) :
    r.lookup k = none
    ∧ get_product_details apiW.details "en" "P2" = .ok [("editorial", .str "B")] := by
  constructor
  · unfold detailTransform at h
    cases hm : detailMerge lang d with
    | error e =>
      rw [hm] at h
      cases h
    | ok d₁ =>
      rw [hm] at h
      have hr : r = detailFinish d₁ := by
        cases h
        rfl
      rw [hr]
      exact detailFinish_absent d₁ k hk
  · with_unfolding_all rfl

/-- Witness for C6: the concrete enrichment of `detailP2` maps
`editorial` to `"B"` and drops `translations`. -/
theorem claim6_witness :
    (([("editorial", JValue.str "B")] : PyDict).lookup "translations" = none)
    ∧ get_product_details apiW.details "en" "P2" = .ok [("editorial", .str "B")] :=
  claim6_enricher "en"
    [("editorialDescription", .str "A"),
     ("status", .str "ACTIVE"),
     ("translations", .arr
       [.obj [("language", .str "fr"), ("editorialDescription", .str "F")],
        .obj [("language", .str "en"), ("editorialDescription", .str "B")]])]
    [("editorial", .str "B")] "translations" (Or.inl (by decide))
    (by with_unfolding_all rfl)

/-- A key present in the key list looks up to something. -/
theorem lookup_isSome_of_mem {β : Type} (k : String) :
    ∀ d : List (String × β), k ∈ dkeys d → (d.lookup k).isSome := by
  intro d
  induction d with
  | nil => intro h; cases h
  | cons kv d ih =>
    intro h
    rcases kv with ⟨a, b⟩
    rw [lookup_cons_eq]
    by_cases hk : k = a
    · rw [if_pos hk]
      rfl
    · rw [if_neg hk]
      refine ih ?_
      rcases List.mem_cons.mp h with h' | h'
      · exact absurd h' hk
      · exact h'

/-- Lookup in an extended association list agrees with the original on
the original's keys. -/
theorem lookup_append_left {β : Type} (k : String) :
    ∀ s t : List (String × β), k ∈ dkeys s → (s ++ t).lookup k = s.lookup k := by
  intro s
  induction s with
  | nil => intro t h; cases h
  | cons kv s ih =>
    intro t h
    rcases kv with ⟨a, b⟩
    rw [List.cons_append, lookup_cons_eq, lookup_cons_eq]
    by_cases hk : k = a
    · rw [if_pos hk, if_pos hk]
    · rw [if_neg hk, if_neg hk]
      refine ih t ?_
      rcases List.mem_cons.mp h with h' | h'
      · exact absurd h' hk
      · exact h'

/-- Keys distribute over append. -/
theorem dkeys_append {β : Type} (s t : List (String × β)) :
    dkeys (s ++ t) = dkeys s ++ dkeys t := by
  simp [dkeys]

/-- A store covering every item code is left untouched by the item
loop: each item is skipped, no event is emitted. -/
theorem processItems_skip (api : Api) (cfg : Config) :
    ∀ (items : List JValue) (t : Store),
      (∀ item ∈ items, ∃ c, itemCode item = .ok c ∧ c ∈ dkeys t) →
      processItems api cfg items t = .ok (t, []) := by
  intro items
  induction items with
  | nil => intro t _; rfl
  | cons item rest ih =>
    intro t hcov
    obtain ⟨c, hc, hmem⟩ := hcov item (List.mem_cons_self item rest)
    have hsome : (t.lookup c).isSome := lookup_isSome_of_mem c t hmem
    unfold processItems
    rw [hc]
    dsimp only
    rw [if_pos hsome]
    exact ih t (fun i hi => hcov i (List.mem_cons_of_mem item hi))

/-- A successful lookup means the key is present. -/
theorem mem_of_lookup_isSome {β : Type} (k : String) :
    ∀ d : List (String × β), (d.lookup k).isSome → k ∈ dkeys d := by
  intro d
  induction d with
  | nil => intro h; cases h
  | cons kv d ih =>
    intro h
    rcases kv with ⟨a, b⟩
    rw [lookup_cons_eq] at h
    by_cases hk : k = a
    · simp [dkeys, hk]
    · rw [if_neg hk] at h
      simp only [dkeys, List.map_cons, List.mem_cons]
      exact Or.inr (ih h)

/-- Structure of a successful item-loop run: the store only grows by
appended bindings, every processed item's code ends up among the store
keys, and every emitted event is a detail fetch for a code that was not
yet stored when the loop started. -/
theorem processItems_spec (api : Api) (cfg : Config) :
    ∀ (items : List JValue) (store store' : Store) (evs : List Event),
      processItems api cfg items store = .ok (store', evs) →
      (∃ t, store' = store ++ t)
      ∧ (∀ item ∈ items, ∃ c, itemCode item = .ok c ∧ c ∈ dkeys store')
      ∧ (∀ e ∈ evs, ∃ c, e = .detailFetch c ∧ c ∉ dkeys store) := by
  intro items
  induction items with
  | nil =>
    intro store store' evs h
    unfold processItems at h
    injection h with h
    injection h with h1 h2
    subst h1
    subst h2
    refine ⟨⟨[], by simp⟩, ?_, ?_⟩
    · intro item hi
      exact absurd hi (List.not_mem_nil item)
    · intro e he
      exact absurd he (List.not_mem_nil e)
  | cons item rest ih =>
    intro store store' evs h
    unfold processItems at h
    cases hc : itemCode item with
    | error e =>
      rw [hc] at h
      simp at h
    | ok code =>
      rw [hc] at h
      dsimp only at h
      by_cases hs : (store.lookup code).isSome
      · rw [if_pos hs] at h
        obtain ⟨⟨t, ht⟩, hcov, hev⟩ := ih store store' evs h
        refine ⟨⟨t, ht⟩, ?_, hev⟩
        intro i hi
        rcases List.mem_cons.mp hi with hi | hi
        · subst hi
          refine ⟨code, hc, ?_⟩
          have hmem : code ∈ dkeys store := mem_of_lookup_isSome code store hs
          rw [ht, dkeys_append]
          exact List.mem_append.mpr (Or.inl hmem)
        · exact hcov i hi
      · rw [if_neg hs] at h
        cases ha : asObj item with
        | error e =>
          rw [ha] at h
          simp at h
        | ok d =>
          rw [ha] at h
          dsimp only at h
          cases hpi : process_images d with
          | error e =>
            rw [hpi] at h
            simp at h
          | ok images =>
            rw [hpi] at h
            dsimp only at h
            cases hpd : cfg.productDetails with
            | true =>
              rw [hpd] at h
              rw [if_pos rfl] at h
              cases hd : get_product_details api.details cfg.language code with
              | error e =>
                rw [hd] at h
                simp at h
              | ok details =>
                rw [hd] at h
                dsimp only at h
                generalize hR : dupdate (List.foldl dpop
                    (dinsert d "images" (JValue.arr (List.map JValue.str images)))
                    listingDropKeys) details = R at h
                cases hrec : processItems api cfg rest (store ++ [(code, R)]) with
                | error e =>
                  rw [hrec] at h
                  simp at h
                | ok pr =>
                  rcases pr with ⟨s₁, ev₁⟩
                  rw [hrec] at h
                  dsimp only at h
                  injection h with h
                  injection h with h1 h2
                  subst h1
                  subst h2
                  obtain ⟨⟨t, ht⟩, hcov, hev⟩ := ih (store ++ [(code, R)]) s₁ ev₁ hrec
                  refine ⟨⟨(code, R) :: t, by rw [ht]; simp⟩, ?_, ?_⟩
                  · intro i hi
                    rcases List.mem_cons.mp hi with hi | hi
                    · subst hi
                      refine ⟨code, hc, ?_⟩
                      rw [ht, dkeys_append, dkeys_append]
                      refine List.mem_append.mpr (Or.inl ?_)
                      refine List.mem_append.mpr (Or.inr ?_)
                      simp [dkeys]
                    · exact hcov i hi
                  · intro e he
                    rcases List.mem_cons.mp he with he | he
                    · refine ⟨code, he, ?_⟩
                      intro hm
                      exact hs (lookup_isSome_of_mem code store hm)
                    · obtain ⟨c', he', hc'⟩ := hev e he
                      refine ⟨c', he', ?_⟩
                      intro hm
                      refine hc' ?_
                      rw [dkeys_append]
                      exact List.mem_append.mpr (Or.inl hm)
            | false =>
              rw [hpd] at h
              rw [if_neg Bool.false_ne_true] at h
              generalize hR : List.foldl dpop
                  (dinsert d "images" (JValue.arr (List.map JValue.str images)))
                  listingDropKeys = R at h
              cases hrec : processItems api cfg rest (store ++ [(code, R)]) with
              | error e =>
                rw [hrec] at h
                simp at h
              | ok pr =>
                rcases pr with ⟨s₁, ev₁⟩
                rw [hrec] at h
                dsimp only at h
                injection h with h
                injection h with h1 h2
                subst h1
                subst h2
                obtain ⟨⟨t, ht⟩, hcov, hev⟩ := ih (store ++ [(code, R)]) s₁ ev₁ hrec
                refine ⟨⟨(code, R) :: t, by rw [ht]; simp⟩, ?_, ?_⟩
                · intro i hi
                  rcases List.mem_cons.mp hi with hi | hi
                  · subst hi
                    refine ⟨code, hc, ?_⟩
                    rw [ht, dkeys_append, dkeys_append]
                    refine List.mem_append.mpr (Or.inl ?_)
                    refine List.mem_append.mpr (Or.inr ?_)
                    simp [dkeys]
                  · exact hcov i hi
                · intro e he
                  obtain ⟨c', he', hc'⟩ := hev e he
                  refine ⟨c', he', ?_⟩
                  intro hm
                  refine hc' ?_
                  rw [dkeys_append]
                  exact List.mem_append.mpr (Or.inl hm)

/-- Structure of a successful page-loop run: the store only grows; any
store whose keys cover the final keys is a fixed point on which the
same loop performs exactly the same page fetches and nothing else; and
every event is a page fetch or a detail fetch for a code that was not
yet stored at loop start. -/
theorem pageLoop_spec (api : Api) (cfg : Config) (cat lang : String) :
    ∀ (fuel page : Nat) (np : JValue) (store store' : Store) (evs : List Event),
      pageLoop api cfg cat lang fuel page np store = .ok (store', evs) →
      (∃ t, store' = store ++ t)
      ∧ (∀ t, (∀ c, c ∈ dkeys store' → c ∈ dkeys t) →
          pageLoop api cfg cat lang fuel page np t = .ok (t, evs.filter Event.isPage))
      ∧ (∀ e ∈ evs, e.isPage = true ∨ ∃ c, e = .detailFetch c ∧ c ∉ dkeys store) := by
  intro fuel
  induction fuel with
  | zero =>
    intro page np store store' evs h
    simp [pageLoop] at h
  | succ fuel ih =>
    intro page np store store' evs h
    unfold pageLoop at h
    cases hlt : ltNat page np with
    | error e =>
      rw [hlt] at h
      simp at h
    | ok b =>
      rw [hlt] at h
      cases b with
      | false =>
        dsimp only at h
        injection h with h
        injection h with h1 h2
        subst h1
        subst h2
        refine ⟨⟨[], by simp⟩, ?_, ?_⟩
        · intro t _
          unfold pageLoop
          rw [hlt]
          rfl
        · intro e he
          exact absurd he (List.not_mem_nil e)
      | true =>
        dsimp only at h
        cases hget : getJ (api.listing cat lang page) with
        | none =>
          rw [hget] at h
          dsimp only at h
          injection h with h
          injection h with h1 h2
          subst h1
          subst h2
          refine ⟨⟨[], by simp⟩, ?_, ?_⟩
          · intro t _
            unfold pageLoop
            rw [hlt]
            dsimp only
            rw [hget]
            rfl
          · intro e he
            rcases List.mem_cons.mp he with he | he
            · subst he
              exact Or.inl rfl
            · exact absurd he (List.not_mem_nil e)
        | some data =>
          rw [hget] at h
          dsimp only at h
          cases hnp : jIndex data "numberOfPages" with
          | error e =>
            rw [hnp] at h
            simp at h
          | ok np' =>
            rw [hnp] at h
            dsimp only at h
            cases hpr : jIndex data "products" with
            | error e =>
              rw [hpr] at h
              simp at h
            | ok productsV =>
              rw [hpr] at h
              dsimp only at h
              cases hit : jIndex productsV "items" with
              | error e =>
                rw [hit] at h
                simp at h
              | ok itemsV =>
                rw [hit] at h
                dsimp only at h
                cases hal : asList itemsV with
                | error e =>
                  rw [hal] at h
                  simp at h
                | ok items =>
                  rw [hal] at h
                  dsimp only at h
                  by_cases hlen : items.length = 0
                  · rw [if_pos hlen] at h
                    injection h with h
                    injection h with h1 h2
                    subst h1
                    subst h2
                    refine ⟨⟨[], by simp⟩, ?_, ?_⟩
                    · intro t _
                      unfold pageLoop
                      rw [hlt]
                      dsimp only
                      rw [hget]
                      dsimp only
                      rw [hnp]
                      dsimp only
                      rw [hpr]
                      dsimp only
                      rw [hit]
                      dsimp only
                      rw [hal]
                      dsimp only
                      rw [if_pos hlen]
                      rfl
                    · intro e he
                      rcases List.mem_cons.mp he with he | he
                      · subst he
                        exact Or.inl rfl
                      · exact absurd he (List.not_mem_nil e)
                  · rw [if_neg hlen] at h
                    cases hpi : processItems api cfg items store with
                    | error e =>
                      rw [hpi] at h
                      simp at h
                    | ok pr =>
                      rcases pr with ⟨s₁, ev₁⟩
                      rw [hpi] at h
                      dsimp only at h
                      cases hrec : pageLoop api cfg cat lang fuel (page + 1) np' s₁ with
                      | error e =>
                        rw [hrec] at h
                        simp at h
                      | ok pr₂ =>
                        rcases pr₂ with ⟨s₂, ev₂⟩
                        rw [hrec] at h
                        dsimp only at h
                        injection h with h
                        injection h with h1 h2
                        subst h1
                        subst h2
                        obtain ⟨⟨t₁, ht₁⟩, hcov, hev₁⟩ :=
                          processItems_spec api cfg items store s₁ ev₁ hpi
                        obtain ⟨⟨t₂, ht₂⟩, habs, hev₂⟩ := ih (page + 1) np' s₁ s₂ ev₂ hrec
                        have hf1 : ev₁.filter Event.isPage = [] := by
                          rw [List.filter_eq_nil_iff]
                          intro e he
                          obtain ⟨c, hec, _⟩ := hev₁ e he
                          rw [hec]
                          simp [Event.isPage]
                        refine ⟨⟨t₁ ++ t₂, by rw [ht₂, ht₁]; simp⟩, ?_, ?_⟩
                        · intro t hsup
                          unfold pageLoop
                          rw [hlt]
                          dsimp only
                          rw [hget]
                          dsimp only
                          rw [hnp]
                          dsimp only
                          rw [hpr]
                          dsimp only
                          rw [hit]
                          dsimp only
                          rw [hal]
                          dsimp only
                          rw [if_neg hlen]
                          have hskip : processItems api cfg items t = .ok (t, []) := by
                            refine processItems_skip api cfg items t ?_
                            intro i hi
                            obtain ⟨c, hc, hm⟩ := hcov i hi
                            refine ⟨c, hc, hsup c ?_⟩
                            rw [ht₂, dkeys_append]
                            exact List.mem_append.mpr (Or.inl hm)
                          rw [hskip]
                          dsimp only
                          rw [habs t hsup]
                          dsimp only
                          rw [List.filter_cons, List.filter_append, hf1]
                          simp [Event.isPage]
                        · intro e he
                          rcases List.mem_cons.mp he with he | he
                          · subst he
                            exact Or.inl rfl
                          · rcases List.mem_append.mp he with he | he
                            · obtain ⟨c, hec, hc⟩ := hev₁ e he
                              exact Or.inr ⟨c, hec, hc⟩
                            · rcases hev₂ e he with hp | ⟨c, hec, hc⟩
                              · exact Or.inl hp
                              · refine Or.inr ⟨c, hec, ?_⟩
                                intro hm
                                refine hc ?_
                                rw [ht₁, dkeys_append]
                                exact List.mem_append.mpr (Or.inl hm)

/-- `crawlCatLang` inherits the page-loop structure (a category outside
the allow-list contributes nothing). -/
theorem crawlCatLang_spec (api : Api) (cfg : Config) (cat lang : String) (fuel : Nat) :
    ∀ (store store' : Store) (evs : List Event),
      crawlCatLang api cfg cat lang fuel store = .ok (store', evs) →
      (∃ t, store' = store ++ t)
      ∧ (∀ t, (∀ c, c ∈ dkeys store' → c ∈ dkeys t) →
          crawlCatLang api cfg cat lang fuel t = .ok (t, evs.filter Event.isPage))
      ∧ (∀ e ∈ evs, e.isPage = true ∨ ∃ c, e = .detailFetch c ∧ c ∉ dkeys store) := by
  intro store store' evs h
  unfold crawlCatLang at h
  by_cases hc : cat ∈ cfg.categories
  · rw [if_pos hc] at h
    obtain ⟨h1, h2, h3⟩ := pageLoop_spec api cfg cat lang fuel 0 (.num 1) store store' evs h
    refine ⟨h1, ?_, h3⟩
    intro t hsup
    unfold crawlCatLang
    rw [if_pos hc]
    exact h2 t hsup
  · rw [if_neg hc] at h
    injection h with h
    injection h with h1 h2
    subst h1
    subst h2
    refine ⟨⟨[], by simp⟩, ?_, fun e he => absurd he (List.not_mem_nil e)⟩
    intro t _
    unfold crawlCatLang
    rw [if_neg hc]
    rfl

/-- Structure of a successful multi-pair crawl: store growth, fixed
point on covering stores with only the page fetches replayed, and
detail fetches only for codes unseen at the start. -/
theorem runPairs_spec (api : Api) (cfg : Config) (fuel : Nat) :
    ∀ (pairs : List (String × String)) (store store' : Store) (evs : List Event),
      runPairs api cfg fuel pairs store = .ok (store', evs) →
      (∃ t, store' = store ++ t)
      ∧ (∀ t, (∀ c, c ∈ dkeys store' → c ∈ dkeys t) →
          runPairs api cfg fuel pairs t = .ok (t, evs.filter Event.isPage))
      ∧ (∀ e ∈ evs, e.isPage = true ∨ ∃ c, e = .detailFetch c ∧ c ∉ dkeys store) := by
  intro pairs
  induction pairs with
  | nil =>
    intro store store' evs h
    unfold runPairs at h
    injection h with h
    injection h with h1 h2
    subst h1
    subst h2
    refine ⟨⟨[], by simp⟩, ?_, fun e he => absurd he (List.not_mem_nil e)⟩
    intro t _
    rfl
  | cons pr rest ih =>
    rcases pr with ⟨lang, cat⟩
    intro store store' evs h
    unfold runPairs at h
    cases h₁ : crawlCatLang api cfg cat lang fuel store with
    | error e =>
      rw [h₁] at h
      simp at h
    | ok p₁ =>
      rcases p₁ with ⟨s₁, ev₁⟩
      rw [h₁] at h
      dsimp only at h
      cases h₂ : runPairs api cfg fuel rest s₁ with
      | error e =>
        rw [h₂] at h
        simp at h
      | ok p₂ =>
        rcases p₂ with ⟨s₂, ev₂⟩
        rw [h₂] at h
        dsimp only at h
        injection h with h
        injection h with hA hB
        subst hA
        subst hB
        obtain ⟨⟨t₁, ht₁⟩, habs₁, hev₁⟩ := crawlCatLang_spec api cfg cat lang fuel store s₁ ev₁ h₁
        obtain ⟨⟨t₂, ht₂⟩, habs₂, hev₂⟩ := ih s₁ s₂ ev₂ h₂
        refine ⟨⟨t₁ ++ t₂, by rw [ht₂, ht₁]; simp⟩, ?_, ?_⟩
        · intro t hsup
          unfold runPairs
          have e₁ : crawlCatLang api cfg cat lang fuel t = .ok (t, ev₁.filter Event.isPage) := by
            refine habs₁ t ?_
            intro c hcm
            refine hsup c ?_
            rw [ht₂, dkeys_append]
            exact List.mem_append.mpr (Or.inl hcm)
          rw [e₁]
          dsimp only
          rw [habs₂ t hsup]
          dsimp only
          rw [List.filter_append]
        · intro e he
          rcases List.mem_append.mp he with he | he
          · exact hev₁ e he
          · rcases hev₂ e he with hp | ⟨c, hec, hc⟩
            · exact Or.inl hp
            · refine Or.inr ⟨c, hec, fun hm => hc ?_⟩
              rw [ht₁, dkeys_append]
              exact List.mem_append.mpr (Or.inl hm)

/-- C1: crawling is idempotent with respect to the store.  After a
successful crawl from store `s` to store `s'`: every code already in
`s` keeps its exact record and is never detail-fetched; re-running the
same crawl from `s'` returns `s'` unchanged while performing only the
page fetches (no detail fetch at all), so the second run's delta count
is zero. -/
theorem claim1_crawl_idempotent (api : Api) (cfg : Config) (fuel : Nat)
    (s s' : Store) (ev : List Event)
    (h : runAll api cfg fuel s = .ok (s', ev)) :
    (∀ c, c ∈ dkeys s → s'.lookup c = s.lookup c ∧ Event.detailFetch c ∉ ev)
    ∧ runAll api cfg fuel s' = .ok (s', ev.filter Event.isPage)
    ∧ (∀ c, Event.detailFetch c ∉ ev.filter Event.isPage)
    ∧ storeDelta s' s' = 0 := by
  unfold runAll at h
  obtain ⟨⟨t, ht⟩, habs, hev⟩ := runPairs_spec api cfg fuel _ s s' ev h
  refine ⟨?_, habs s' (fun c hc => hc), ?_, by simp [storeDelta]⟩
  · intro c hc
    constructor
    · rw [ht]
      exact lookup_append_left c s t hc
    · intro hin
      rcases hev _ hin with hp | ⟨c', hec, hc'⟩
      · simp [Event.isPage] at hp
      · injection hec with hcc
        subst hcc
        exact hc' hc
  · intro c hin
    have := List.of_mem_filter hin
    simp [Event.isPage] at this

/-- Witness for C1: the concrete mock run.  `P1` is already stored: its
record is untouched and never detail-fetched; running the crawl again
from the final store changes nothing (only the page fetch replays) and
the second-run delta is zero. -/
theorem claim1_witness :
    ("P1" ∈ dkeys storeW
      ∧ storeWFinal.lookup "P1" = storeW.lookup "P1"
      ∧ Event.detailFetch "P1" ∉ evW)
    ∧ runAll apiW cfgDet 3 storeWFinal = .ok (storeWFinal, evW.filter Event.isPage)
    ∧ storeDelta storeWFinal storeWFinal = 0 := by
  have h := claim1_crawl_idempotent apiW cfgDet 3 storeW storeWFinal evW
    (by with_unfolding_all rfl)
  exact ⟨⟨by decide, (h.1 "P1" (by decide)).1, (h.1 "P1" (by decide)).2⟩,
    h.2.1, h.2.2.2⟩

/-- One unfolding of the page loop when the bound allows the page, the
fetch returns a well-formed non-empty page, and fuel remains. -/
theorem pageLoop_step (api : Api) (cfg : Config) (cat lang : String)
    (fuel page : Nat) (npInt np' : Int) (store : Store) (its : List JValue)
    (hlt : (page : Int) < npInt)
    (hfetch : api.listing cat lang page = some (mkPage np' its))
    (hne : its ≠ []) :
    pageLoop api cfg cat lang (fuel + 1) page (.num npInt) store
      = match processItems api cfg its store with
        | .error e => .error e
        | .ok (store', evs) =>
          match pageLoop api cfg cat lang fuel (page + 1) (.num np') store' with
          | .error e => .error e
          | .ok (store'', evs') =>
            .ok (store'', .pageFetch cat lang page :: (evs ++ evs')) := by
  have hl : ltNat page (.num npInt) = .ok true := by
    simp [ltNat, hlt]
  have hg : getJ (api.listing cat lang page) = some (mkPage np' its) := by
    rw [hfetch]
    rfl
  have e1 : jIndex (mkPage np' its) "numberOfPages" = .ok (.num np') := by
    with_unfolding_all rfl
  have e2 : jIndex (mkPage np' its) "products" = .ok (.obj [("items", .arr its)]) := by
    with_unfolding_all rfl
  have e3 : jIndex (JValue.obj [("items", .arr its)]) "items" = .ok (.arr its) := by
    with_unfolding_all rfl
  have hlen : ¬ its.length = 0 := by
    cases its with
    | nil => exact absurd rfl hne
    | cons x xs => simp
  conv_lhs => rw [pageLoop]
  rw [hl]
  dsimp only
  rw [hg]
  dsimp only
  rw [e1]
  dsimp only
  rw [e2]
  dsimp only
  rw [e3]
  dsimp only
  rw [show asList (JValue.arr its) = .ok its from rfl]
  dsimp only
  rw [if_neg hlen]

/-- The page loop stops silently once the page index reaches the bound. -/
theorem pageLoop_stop (api : Api) (cfg : Config) (cat lang : String)
    (fuel page : Nat) (npInt : Int) (store : Store)
    (hge : ¬ (page : Int) < npInt) :
    pageLoop api cfg cat lang (fuel + 1) page (.num npInt) store = .ok (store, []) := by
  have hl : ltNat page (.num npInt) = .ok false := by
    simp [ltNat, hge]
  unfold pageLoop
  rw [hl]

/-- A page with an empty item list ends the loop after its own fetch,
even when the advertised page count allows more pages. -/
theorem pageLoop_emptyPage (api : Api) (cfg : Config) (cat lang : String)
    (fuel page : Nat) (npInt np' : Int) (store : Store)
    (hlt : (page : Int) < npInt)
    (hfetch : api.listing cat lang page = some (mkPage np' [])) :
    pageLoop api cfg cat lang (fuel + 1) page (.num npInt) store
      = .ok (store, [.pageFetch cat lang page]) := by
  have hl : ltNat page (.num npInt) = .ok true := by
    simp [ltNat, hlt]
  have hg : getJ (api.listing cat lang page) = some (mkPage np' []) := by
    rw [hfetch]
    rfl
  unfold pageLoop
  rw [hl]
  dsimp only
  rw [hg]
  dsimp only
  rw [show jIndex (mkPage np' []) "numberOfPages" = .ok (.num np') from by
    with_unfolding_all rfl]
  dsimp only
  rw [show jIndex (mkPage np' []) "products" = .ok (.obj [("items", .arr [])]) from by
    with_unfolding_all rfl]
  dsimp only
  rw [show jIndex (JValue.obj [("items", .arr ([] : List JValue))]) "items"
      = .ok (.arr []) from by with_unfolding_all rfl]
  dsimp only
  rfl

/-- A failed page fetch ends the loop normally after the attempted
fetch: end-of-stream, not an error. -/
theorem pageLoop_failFetch (api : Api) (cfg : Config) (cat lang : String)
    (fuel page : Nat) (npInt : Int) (store : Store)
    (hlt : (page : Int) < npInt)
    (hfetch : api.listing cat lang page = none) :
    pageLoop api cfg cat lang (fuel + 1) page (.num npInt) store
      = .ok (store, [.pageFetch cat lang page]) := by
  have hl : ltNat page (.num npInt) = .ok true := by
    simp [ltNat, hlt]
  have hg : getJ (api.listing cat lang page) = none := by
    rw [hfetch]
    rfl
  unfold pageLoop
  rw [hl]
  dsimp only
  rw [hg]

/-- A list of detail-fetch events contains no page fetch. -/
theorem filter_isPage_nil (evs : List Event)
    (h : ∀ e ∈ evs, ∃ c, e = Event.detailFetch c) :
    evs.filter Event.isPage = [] := by
  rw [List.filter_eq_nil_iff]
  intro e he
  obtain ⟨c, hc⟩ := h e he
  rw [hc]
  simp [Event.isPage]

/-- C3: pagination for one (category, language) pair starts at page 0.
When the endpoint returns `numberOfPages = 3` with non-empty item lists
on pages 0-2, a successful crawl performs exactly 3 page fetches; a
page whose item list is empty stops further fetching for the pair even
though `numberOfPages` implies more pages (2 fetches, normal result);
and a failed fetch stops the loop as end-of-stream — the crawl returns
normally, not with an error (2 fetches, normal result). -/
theorem claim3_pagination
    (api₁ api₂ api₃ : Api) (cfg : Config) (cat lang : String)
    (hcat : cat ∈ cfg.categories) (n : Nat)
    (items1 : Nat → List JValue) (s₁ s₁' : Store) (ev₁ : List Event)
    (hfetch1 : ∀ p, p < 3 → api₁.listing cat lang p = some (mkPage 3 (items1 p)))
    (hne1 : ∀ p, p < 3 → items1 p ≠ [])
    (hok1 : crawlCatLang api₁ cfg cat lang (n + 4) s₁ = .ok (s₁', ev₁))
    (its20 : List JValue) (s₂ s₂' : Store) (ev₂ : List Event)
    (hfetch20 : api₂.listing cat lang 0 = some (mkPage 5 its20))
    (hne20 : its20 ≠ [])
    (hfetch21 : api₂.listing cat lang 1 = some (mkPage 5 []))
    (hpi2 : processItems api₂ cfg its20 s₂ = .ok (s₂', ev₂))
    (its30 : List JValue) (s₃ s₃' : Store) (ev₃ : List Event)
    (hfetch30 : api₃.listing cat lang 0 = some (mkPage 5 its30))
    (hne30 : its30 ≠ [])
    (hfetch31 : api₃.listing cat lang 1 = none)
    (hpi3 : processItems api₃ cfg its30 s₃ = .ok (s₃', ev₃)) :
    (ev₁.filter Event.isPage).length = 3
    ∧ crawlCatLang api₂ cfg cat lang (n + 2) s₂
        = .ok (s₂', .pageFetch cat lang 0 :: (ev₂ ++ [.pageFetch cat lang 1]))
    ∧ crawlCatLang api₃ cfg cat lang (n + 2) s₃
        = .ok (s₃', .pageFetch cat lang 0 :: (ev₃ ++ [.pageFetch cat lang 1])) := by
  refine ⟨?_, ?_, ?_⟩
  · unfold crawlCatLang at hok1
    rw [if_pos hcat] at hok1
    rw [show n + 4 = n + 3 + 1 from rfl] at hok1
    rw [pageLoop_step api₁ cfg cat lang (n + 3) 0 1 3 s₁ (items1 0) (by decide)
      (hfetch1 0 (by decide)) (hne1 0 (by decide))] at hok1
    cases hp0 : processItems api₁ cfg (items1 0) s₁ with
    | error e =>
      rw [hp0] at hok1
      simp at hok1
    | ok p0 =>
      rcases p0 with ⟨t0, d0⟩
      rw [hp0] at hok1
      dsimp only at hok1
      rw [show n + 3 = n + 2 + 1 from rfl] at hok1
      rw [pageLoop_step api₁ cfg cat lang (n + 2) 1 3 3 t0 (items1 1) (by decide)
        (hfetch1 1 (by decide)) (hne1 1 (by decide))] at hok1
      cases hp1 : processItems api₁ cfg (items1 1) t0 with
      | error e =>
        rw [hp1] at hok1
        simp at hok1
      | ok p1 =>
        rcases p1 with ⟨t1, d1⟩
        rw [hp1] at hok1
        dsimp only at hok1
        rw [show n + 2 = n + 1 + 1 from rfl] at hok1
        rw [pageLoop_step api₁ cfg cat lang (n + 1) 2 3 3 t1 (items1 2) (by decide)
          (hfetch1 2 (by decide)) (hne1 2 (by decide))] at hok1
        cases hp2 : processItems api₁ cfg (items1 2) t1 with
        | error e =>
          rw [hp2] at hok1
          simp at hok1
        | ok p2 =>
          rcases p2 with ⟨t2, d2⟩
          rw [hp2] at hok1
          dsimp only at hok1
          rw [pageLoop_stop api₁ cfg cat lang n 3 3 t2 (by decide)] at hok1
          dsimp only at hok1
          injection hok1 with hok1
          injection hok1 with hA hB
          subst hA
          obtain ⟨_, _, hev0⟩ := processItems_spec api₁ cfg (items1 0) s₁ t0 d0 hp0
          obtain ⟨_, _, hev1⟩ := processItems_spec api₁ cfg (items1 1) t0 t1 d1 hp1
          obtain ⟨_, _, hev2⟩ := processItems_spec api₁ cfg (items1 2) t1 t2 d2 hp2
          have hf0 : d0.filter Event.isPage = [] :=
            filter_isPage_nil d0 (fun e he => (hev0 e he).imp (fun c hc => hc.1))
          have hf1 : d1.filter Event.isPage = [] :=
            filter_isPage_nil d1 (fun e he => (hev1 e he).imp (fun c hc => hc.1))
          have hf2 : d2.filter Event.isPage = [] :=
            filter_isPage_nil d2 (fun e he => (hev2 e he).imp (fun c hc => hc.1))
          rw [← hB]
          simp [List.filter_cons, List.filter_append, hf0, hf1, hf2, Event.isPage]
  · unfold crawlCatLang
    rw [if_pos hcat]
    rw [show n + 2 = n + 1 + 1 from rfl]
    rw [pageLoop_step api₂ cfg cat lang (n + 1) 0 1 5 s₂ its20 (by decide)
      hfetch20 hne20]
    rw [hpi2]
    dsimp only
    rw [pageLoop_emptyPage api₂ cfg cat lang n 1 5 5 s₂' (by decide) hfetch21]
  · unfold crawlCatLang
    rw [if_pos hcat]
    rw [show n + 2 = n + 1 + 1 from rfl]
    rw [pageLoop_step api₃ cfg cat lang (n + 1) 0 1 5 s₃ its30 (by decide)
      hfetch30 hne30]
    rw [hpi3]
    dsimp only
    rw [pageLoop_failFetch api₃ cfg cat lang n 1 5 s₃' (by decide) hfetch31]

/-- Witness for C3: the three concrete mock endpoints.  The three-page
endpoint is fetched exactly three times; the empty-page and
failed-fetch endpoints stop after two fetches with a normal result. -/
theorem claim3_witness :
    (([Event.pageFetch "women" "us/en" 0, Event.pageFetch "women" "us/en" 1,
        Event.pageFetch "women" "us/en" 2] : List Event).filter Event.isPage).length = 3
    ∧ crawlCatLang apiPagEmpty cfgNoDet "women" "us/en" (0 + 2) []
        = .ok ([("P1", recP1)],
            .pageFetch "women" "us/en" 0 :: ([] ++ [.pageFetch "women" "us/en" 1]))
    ∧ crawlCatLang apiPagFail cfgNoDet "women" "us/en" (0 + 2) []
        = .ok ([("P1", recP1)],
            .pageFetch "women" "us/en" 0 :: ([] ++ [.pageFetch "women" "us/en" 1])) :=
  claim3_pagination apiPag3 apiPagEmpty apiPagFail cfgNoDet "women" "us/en"
    (by decide) 0
    (fun _ => [itemP1]) [] [("P1", recP1)]
    [.pageFetch "women" "us/en" 0, .pageFetch "women" "us/en" 1,
     .pageFetch "women" "us/en" 2]
    (fun p hp => by
      have : (if "women" = "women" ∧ "us/en" = "us/en" ∧ p < 3
          then some (mkPage 3 [itemP1]) else none) = some (mkPage 3 [itemP1]) := by
        rw [if_pos ⟨rfl, rfl, hp⟩]
      exact this)
    (fun p hp => by simp)
    (by with_unfolding_all rfl)
    [itemP1] [] [("P1", recP1)] []
    (by with_unfolding_all rfl)
    (by simp)
    (by with_unfolding_all rfl)
    (by with_unfolding_all rfl)
    [itemP1] [] [("P1", recP1)] []
    (by with_unfolding_all rfl)
    (by simp)
    (by with_unfolding_all rfl)
    (by with_unfolding_all rfl)
